import Mathlib

/-!
Shallow embedding of the segmentation and statistical-comparison engine
(`src/stats.ts`) of the `sarahtonin` stress-tracking application, together
with proofs checking the specification's claims against it.

Modelling conventions:
* Dates are ISO `YYYY-MM-DD` strings in the source, compared with
  lexicographic string comparison (`<`, `>=`, `localeCompare`); on such
  strings that order is isomorphic to the order on day numbers, so dates
  are modelled as `ℕ`.
* JavaScript numbers are modelled as real numbers `ℝ` (exact arithmetic);
  order-and-field computations that the source performs on plain rationals
  are stated polymorphically over a `LinearOrderedField` so they stay
  executable at `ℚ`.
* `Array.prototype.sort` (stable) is modelled by `List.insertionSort`,
  which is stable for the `≤`-by-key relation used here.
-/

namespace Sarahtonin

/-- Measurement record: `StressEntry` from `types.ts` (`date` ISO string,
`score` number), with the date modelled as a day number. -/
structure StressEntry where
  date : ℕ
  score : ℝ

/-- Marker record: `Waypoint` from `types.ts` (`id`, `date`, `label`,
optional `color`). -/
structure Waypoint where
  id : String
  date : ℕ
  label : String
  color : Option String := none

/-- Derived segment record: `Segment` from `types.ts`. -/
structure Segment where
  label : String
  startDate : ℕ
  endDate : ℕ
  entries : List StressEntry

/-- Result record of `linearRegression` (`{slope, intercept}`). -/
structure LinReg (α : Type*) where
  slope : α
  intercept : α
deriving DecidableEq

section Descriptive

variable {α : Type*} [LinearOrderedField α] [FloorRing α]

/-- `mean(values)` from `stats.ts`: `reduce`-sum divided by length, `0` on
empty input. -/
def mean (values : List α) : α :=
  if values.length = 0 then 0
  else values.foldl (fun s v => s + v) 0 / (values.length : α)

/-- `median(values)` from `stats.ts`: sorts a copy; middle element for odd
length, average of the two central elements for even length; `0` on empty. -/
def median (values : List α) : α :=
  if values.length = 0 then 0
  else
    let sorted := List.insertionSort (· ≤ ·) values
    let mid := sorted.length / 2
    if sorted.length % 2 ≠ 0 then sorted.getD mid 0
    else (sorted.getD (mid - 1) 0 + sorted.getD mid 0) / 2

/-- `percentile(values, p)` from `stats.ts`: sorts a copy and linearly
interpolates at fractional rank `idx = p/100 * (n-1)`; `0` on empty. -/
def percentile (values : List α) (p : α) : α :=
  if values.length = 0 then 0
  else
    let sorted := List.insertionSort (· ≤ ·) values
    let idx : α := p / 100 * ((sorted.length : α) - 1)
    let lower : ℤ := ⌊idx⌋
    let upper : ℤ := ⌈idx⌉
    if lower = upper then sorted.getD lower.toNat 0
    else
      sorted.getD lower.toNat 0 +
        (sorted.getD upper.toNat 0 - sorted.getD lower.toNat 0) * (idx - (lower : α))

/-- `variance(values)` from `stats.ts`: sample variance with `n-1` divisor,
`0` when fewer than two values. -/
def variance (values : List α) : α :=
  if values.length < 2 then 0
  else
    let m := mean values
    values.foldl (fun s v => s + (v - m) ^ 2) 0 / ((values.length : α) - 1)

/-- `Math.min(...scores)` on a spread argument list. JavaScript returns
`Infinity` on an empty spread; the engine only applies it to non-empty
score lists, so the empty case carries an arbitrary default. -/
def listMin : List α → α
  | [] => 0
  | x :: xs => xs.foldl min x

/-- `Math.max(...scores)`; see `listMin` for the empty case. -/
def listMax : List α → α
  | [] => 0
  | x :: xs => xs.foldl max x

/-- First element under `values[0] ?? 0`. -/
def headOr0 (values : List α) : α := values.headD 0

/-- Accumulated OLS sums `(Σx, Σy, Σxy, Σx²)` over index/value pairs,
matching the single accumulation loop of `linearRegression` /
`linearRegressionSlope`. -/
def olsSums (values : List α) : α × α × α × α :=
  values.enum.foldl
    (fun s iv =>
      (s.1 + (iv.1 : α), s.2.1 + iv.2, s.2.2.1 + (iv.1 : α) * iv.2,
        s.2.2.2 + (iv.1 : α) * (iv.1 : α)))
    (0, 0, 0, 0)

/-- OLS denominator `n * sumX2 - sumX * sumX` shared by
`linearRegressionSlope` and `linearRegression`. -/
def olsDenom (values : List α) : α :=
  (values.length : α) * (olsSums values).2.2.2 - (olsSums values).1 * (olsSums values).1

/-- `linearRegressionSlope(values)` from `stats.ts`. -/
def linearRegressionSlope (values : List α) : α :=
  let n := values.length
  if n < 2 then 0
  else
    let s := olsSums values
    if olsDenom values = 0 then 0
    else ((n : α) * s.2.2.1 - s.1 * s.2.1) / olsDenom values

/-- `linearRegression(values)` from `stats.ts`: slope and intercept via
closed-form OLS sums, with the degenerate branches of the source. -/
def linearRegression (values : List α) : LinReg α :=
  let n := values.length
  if n < 2 then ⟨0, headOr0 values⟩
  else
    let s := olsSums values
    if olsDenom values = 0 then ⟨0, s.2.1 / (n : α)⟩
    else
      let slope := ((n : α) * s.2.2.1 - s.1 * s.2.1) / olsDenom values
      ⟨slope, (s.2.1 - slope * s.1) / (n : α)⟩

end Descriptive

/-- `stdDev(values)` from `stats.ts`: square root of the `n-1` mean of
squared deviations, `0` when fewer than two values. -/
noncomputable def stdDev (values : List ℝ) : ℝ :=
  if values.length < 2 then 0
  else
    let m := mean values
    Real.sqrt ((values.map (fun v => (v - m) ^ 2)).foldl (fun s v => s + v) 0 /
      ((values.length : ℝ) - 1))

/-- `coefficientOfVariation(values)` from `stats.ts`: `stdDev/mean * 100`,
`0` when the mean is `0`. -/
noncomputable def coefficientOfVariation (values : List ℝ) : ℝ :=
  if mean values = 0 then 0 else stdDev values / mean values * 100

/-- Coefficient table of the Lanczos approximation (`g = 7`, 9 terms) used
by `logGamma` in `stats.ts`. -/
def logGammaCoefs : List ℝ :=
  [0.99999999999980993, 676.5203681218851, -1259.1392167224028,
    771.32342877765313, -176.61502916214059, 12.507343278686905,
    -0.13857109526572012, 9.9843695780195716e-6, 1.5056327351493116e-7]

/-- Body of `logGamma` for `x ≥ 0.5` (the part after the reflection test):
shift `x -= 1`, accumulate `a += coefs[i]/(x+i)` for `i = 1..8`, and apply
the Lanczos formula with `t = x + 7 + 0.5`. -/
noncomputable def logGammaCore (x0 : ℝ) : ℝ :=
  let x := x0 - 1
  let t := x + 7 + 0.5
  let a := (List.range 8).foldl
    (fun a i => a + logGammaCoefs.getD (i + 1) 0 / (x + ((i : ℝ) + 1)))
    (logGammaCoefs.getD 0 0)
  0.5 * Real.log (2 * Real.pi) + (x + 0.5) * Real.log t - t + Real.log a

/-- `logGamma(x)` from `stats.ts`. The source recurses once through the
reflection formula when `x < 0.5`; the recursive call's argument `1 - x`
then satisfies `1 - x > 0.5`, so that call is exactly `logGammaCore`. -/
noncomputable def logGamma (x : ℝ) : ℝ :=
  if x < 0.5 then Real.log (Real.pi / Real.sin (Real.pi * x)) - logGammaCore (1 - x)
  else logGammaCore x

/-- Clamp of `stats.ts`: a quantity whose magnitude falls below `1e-30` is
replaced by `1e-30`. -/
noncomputable def lentzClamp (d : ℝ) : ℝ := if |d| < 1e-30 then 1e-30 else d

/-- One iteration (even step then odd step) of the Lentz continued-fraction
loop of `regularizedIncompleteBeta`, at loop counter `m`, acting on the
state `(f, c, dInv)` where `dInv` is the already-inverted `d` the source
carries between iterations. Returns the next state and whether the
early-termination test `|delta - 1| < 1e-10` fired. -/
noncomputable def lentzStep (x a b : ℝ) (m : ℕ) (s : ℝ × ℝ × ℝ) :
    (ℝ × ℝ × ℝ) × Bool :=
  let f := s.1
  let c := s.2.1
  let dInv := s.2.2
  let mr : ℝ := (m : ℝ)
  let num1 := mr * (b - mr) * x / ((a + 2 * mr - 1) * (a + 2 * mr))
  let d1 := lentzClamp (1 + num1 * dInv)
  let c1 := lentzClamp (1 + num1 / c)
  let d1i := 1 / d1
  let f1 := f * (c1 * d1i)
  let num2 := -(a + mr) * (a + b + mr) * x / ((a + 2 * mr) * (a + 2 * mr + 1))
  let d2 := lentzClamp (1 + num2 * d1i)
  let c2 := lentzClamp (1 + num2 / c1)
  let d2i := 1 / d2
  let delta := c2 * d2i
  let f2 := f1 * delta
  ((f2, c2, d2i), decide (|delta - 1| < 1e-10))

/-- The `for (m = 1; m <= 200; m++)` loop of `regularizedIncompleteBeta`,
written with explicit fuel; returns the final `f`. -/
noncomputable def lentzLoop (x a b : ℝ) : ℕ → ℕ → (ℝ × ℝ × ℝ) → ℝ
  | 0, _, s => s.1
  | fuel + 1, m, s =>
    let r := lentzStep x a b m s
    if r.2 then r.1.1 else lentzLoop x a b fuel (m + 1) r.1

/-- `regularizedIncompleteBeta(x, a, b)` from `stats.ts`: boundary cases at
`x = 0` and `x = 1`, log-space front factor, and the 200-iteration Lentz
continued fraction. -/
noncomputable def regularizedIncompleteBeta (x a b : ℝ) : ℝ :=
  if x = 0 then 0
  else if x = 1 then 1
  else
    let lnBeta := logGamma a + logGamma b - logGamma (a + b)
    let front := Real.exp (Real.log x * a + Real.log (1 - x) * b - lnBeta) / a
    let d0 := lentzClamp (1 - (a + b) * x / (a + 1))
    let d0i := 1 / d0
    front * lentzLoop x a b 200 1 (d0i, 1, d0i)

/-- `tDistPValue(t, df)` from `stats.ts`: upper-tail probability of the
t-distribution via the regularized incomplete beta function. -/
noncomputable def tDistPValue (t df : ℝ) : ℝ :=
  let x := df / (df + t * t)
  0.5 * regularizedIncompleteBeta x (df / 2) 0.5

/-- `welchTTest(a, b)` from `stats.ts`: two-tailed Welch unequal-variance
t-test p-value, with degenerate returns `1` for undersized groups or zero
standard error. -/
noncomputable def welchTTest (a b : List ℝ) : ℝ :=
  if a.length < 2 ∨ b.length < 2 then 1
  else
    let meanA := mean a
    let meanB := mean b
    let varA := variance a
    let varB := variance b
    let nA : ℝ := (a.length : ℝ)
    let nB : ℝ := (b.length : ℝ)
    let se := Real.sqrt (varA / nA + varB / nB)
    if se = 0 then 1
    else
      let t := (meanA - meanB) / se
      let num := (varA / nA + varB / nB) ^ 2
      let denom := (varA / nA) ^ 2 / (nA - 1) + (varB / nB) ^ 2 / (nB - 1)
      let df := num / denom
      tDistPValue |t| df * 2

/-- `cohensD(a, b)` from `stats.ts`: pooled-standard-deviation effect size,
with degenerate returns `0` for undersized groups or zero pooled SD. -/
noncomputable def cohensD (a b : List ℝ) : ℝ :=
  if a.length < 2 ∨ b.length < 2 then 0
  else
    let meanA := mean a
    let meanB := mean b
    let varA := variance a
    let varB := variance b
    let pooledSD := Real.sqrt
      ((((a.length : ℝ) - 1) * varA + ((b.length : ℝ) - 1) * varB) /
        ((a.length : ℝ) + (b.length : ℝ) - 2))
    if pooledSD = 0 then 0 else (meanA - meanB) / pooledSD

/-- `effectSizeLabel(d)` from `stats.ts`. -/
noncomputable def effectSizeLabel (d : ℝ) : String :=
  if |d| < 0.2 then "negligible"
  else if |d| < 0.5 then "small"
  else if |d| < 0.8 then "medium"
  else "large"

/-- `significanceLabel(p)` from `stats.ts`. -/
noncomputable def significanceLabel (p : ℝ) : String :=
  if p < 0.001 then "highly significant"
  else if p < 0.01 then "very significant"
  else if p < 0.05 then "significant"
  else if p < 0.1 then "marginally significant"
  else "not significant"

/-- JavaScript `s || fallback` on a string: the empty string is falsy. -/
def jsOrString (s fallback : String) : String := if s = "" then fallback else s

/-- Label lookup `wps[i]?.label || fallback`: missing index or empty label
falls back. -/
def labelOr (o : Option Waypoint) (fallback : String) : String :=
  match o with
  | none => fallback
  | some w => jsOrString w.label fallback

/-- Truthiness of `wps[i]?.label`: the index exists and the label is a
non-empty string. -/
def labelTruthy (o : Option Waypoint) : Bool :=
  match o with
  | none => false
  | some w => w.label ≠ ""

/-- Membership test of the `entries.filter` inside the segment loop of
`buildSegments`: bucket `i` of the boundary list takes dates below
`boundaries[1]` when `i = 0`, dates at or above `boundaries[i]` when `i`
is the last bucket, and the half-open range `[boundaries[i],
boundaries[i+1])` otherwise. -/
def segMember (boundaries : List ℕ) (i : ℕ) (e : StressEntry) : Bool :=
  if i = 0 then e.date < boundaries.getD 1 0
  else if i = boundaries.length - 2 then boundaries.getD i 0 ≤ e.date
  else boundaries.getD i 0 ≤ e.date && e.date < boundaries.getD (i + 1) 0

/-- Label derivation of the segment loop of `buildSegments` (the nested
ternary chain of the source). -/
def segLabel (sortedWps : List Waypoint) (nB i : ℕ) : String :=
  if i = 0 then "Before " ++ labelOr sortedWps.head? "first waypoint"
  else if i = nB - 2 ∧ sortedWps.length > 0 then
    "After " ++ labelOr sortedWps.getLast? "last waypoint"
  else if labelTruthy sortedWps[i - 1]? then
    (labelOr sortedWps[i - 1]? "") ++ " to " ++ labelOr sortedWps[i]? "end"
  else "Segment " ++ toString (i + 1)

/-- `buildSegments(entries, waypoints)` from `stats.ts`: empty input gives
no segments; otherwise waypoints are sorted by date, a boundary list
`[firstDate, wp₁.date, …, lastDate]` is formed, each consecutive boundary
pair yields a segment of the matching measurements (empty ones skipped),
and when the loop produced no segment at all a single "All Data" segment
is returned. -/
def buildSegments (entries : List StressEntry) (waypoints : List Waypoint) :
    List Segment :=
  match entries with
  | [] => []
  | e0 :: _ =>
    let sortedWps := List.insertionSort (fun a b => a.date ≤ b.date) waypoints
    let firstDate := e0.date
    let lastDate := (entries.getLastD e0).date
    let boundaries := firstDate :: (sortedWps.map (fun w => w.date) ++ [lastDate])
    let segs := (List.range (boundaries.length - 1)).filterMap (fun i =>
      let segEntries := entries.filter (segMember boundaries i)
      match segEntries with
      | [] => none
      | s0 :: _ =>
        some { label := segLabel sortedWps boundaries.length i
               startDate := s0.date
               endDate := (segEntries.getLastD s0).date
               entries := segEntries })
    match segs with
    | [] => [{ label := "All Data", startDate := firstDate, endDate := lastDate,
               entries := entries }]
    | s :: ss => s :: ss

/-- Derived statistics record: `SegmentStats` from `types.ts`. -/
structure SegmentStats where
  label : String
  startDate : ℕ
  endDate : ℕ
  count : ℕ
  mean : ℝ
  median : ℝ
  stdDev : ℝ
  min : ℝ
  max : ℝ
  coefficientOfVariation : ℝ
  p25 : ℝ
  p75 : ℝ
  trendSlope : ℝ
  trendDirection : String

/-- `computeSegmentStats(segment)` from `stats.ts`. -/
noncomputable def computeSegmentStats (segment : Segment) : SegmentStats :=
  let scores := segment.entries.map (fun e => e.score)
  let slope := linearRegressionSlope scores
  { label := segment.label
    startDate := segment.startDate
    endDate := segment.endDate
    count := scores.length
    mean := mean scores
    median := median scores
    stdDev := stdDev scores
    min := listMin scores
    max := listMax scores
    coefficientOfVariation := coefficientOfVariation scores
    p25 := percentile scores 25
    p75 := percentile scores 75
    trendSlope := slope
    trendDirection :=
      if |slope| < 0.01 then "flat" else if slope > 0 then "rising" else "falling" }

/-- Comparison record: `WaypointComparison` from `types.ts`. -/
structure WaypointComparison where
  waypoint : Waypoint
  before : SegmentStats
  after : SegmentStats
  deltaMean : ℝ
  percentChange : ℝ
  tTestPValue : ℝ
  cohensD : ℝ
  significanceLabel : String
  effectSizeLabel : String

/-- Placeholder entry standing for the out-of-bounds accesses
`entries[0]` / `entries[length-1]` of the source, which are only evaluated
on lists already known to have at least two elements. -/
def dummyEntry : StressEntry := ⟨0, 0⟩

/-- `computeWaypointComparison(entries, waypoint)` from `stats.ts`: splits
the whole series at the waypoint's date, returns `null` when either side
has fewer than two measurements, and otherwise assembles the comparison
record. -/
noncomputable def computeWaypointComparison (entries : List StressEntry)
    (waypoint : Waypoint) : Option WaypointComparison :=
  let before := (entries.filter (fun e => e.date < waypoint.date)).map
    (fun e => e.score)
  let after := (entries.filter (fun e => waypoint.date ≤ e.date)).map
    (fun e => e.score)
  if before.length < 2 ∨ after.length < 2 then none
  else
    let beforeEntries := entries.filter (fun e => e.date < waypoint.date)
    let afterEntries := entries.filter (fun e => waypoint.date ≤ e.date)
    let beforeStats := computeSegmentStats
      { label := "Before " ++ waypoint.label
        startDate := (beforeEntries.headD dummyEntry).date
        endDate := (beforeEntries.getLastD dummyEntry).date
        entries := beforeEntries }
    let afterStats := computeSegmentStats
      { label := "After " ++ waypoint.label
        startDate := (afterEntries.headD dummyEntry).date
        endDate := (afterEntries.getLastD dummyEntry).date
        entries := afterEntries }
    let delta := afterStats.mean - beforeStats.mean
    let pct := if beforeStats.mean ≠ 0 then delta / beforeStats.mean * 100 else 0
    let pValue := welchTTest before after
    let d := cohensD before after
    some { waypoint := waypoint
           before := beforeStats
           after := afterStats
           deltaMean := delta
           percentChange := pct
           tTestPValue := pValue
           cohensD := d
           significanceLabel := significanceLabel pValue
           effectSizeLabel := effectSizeLabel d }

section InterpDef

variable {α : Type*} [LinearOrderedField α] [FloorRing α]

/-- Interpolation kernel of `percentile`: the value read off at fractional
rank `idx` in an (already sorted) list `s`. -/
def interpAt (s : List α) (idx : α) : α :=
  if (⌊idx⌋ : ℤ) = ⌈idx⌉ then s.getD ⌊idx⌋.toNat 0
  else
    s.getD ⌊idx⌋.toNat 0 +
      (s.getD ⌈idx⌉.toNat 0 - s.getD ⌊idx⌋.toNat 0) * (idx - (⌊idx⌋ : α))

end InterpDef

/-! Helper lemmas about sorted access, fold-based min/max, and the linear
interpolation performed by `percentile`. -/

section OrderStats

variable {α : Type*} [LinearOrderedField α]

lemma sorted_getD_mono {s : List α} (hs : s.Sorted (· ≤ ·)) {i j : ℕ}
    (hij : i ≤ j) (hj : j < s.length) :
    s.getD i 0 ≤ s.getD j 0 := by
  have hi : i < s.length := lt_of_le_of_lt hij hj
  rw [List.getD_eq_getElem _ _ hi, List.getD_eq_getElem _ _ hj]
  exact List.Sorted.rel_get_of_le hs (a := ⟨i, hi⟩) (b := ⟨j, hj⟩) hij

lemma getD_mem_of_lt {s : List α} {i : ℕ} (hi : i < s.length) :
    s.getD i 0 ∈ s := by
  rw [List.getD_eq_getElem _ _ hi]
  exact List.getElem_mem hi

lemma foldl_min_le_init (a : α) (l : List α) : l.foldl min a ≤ a := by
  induction l generalizing a with
  | nil => exact le_refl a
  | cons y ys ih => exact le_trans (ih (min a y)) (min_le_left a y)

lemma foldl_min_le_mem {x : α} {l : List α} (hx : x ∈ l) (a : α) :
    l.foldl min a ≤ x := by
  induction l generalizing a with
  | nil => cases hx
  | cons y ys ih =>
    rcases List.mem_cons.mp hx with rfl | h
    · exact le_trans (foldl_min_le_init (min a x) ys) (min_le_right a x)
    · exact ih h _

lemma listMin_le_mem {x : α} {l : List α} (hx : x ∈ l) : listMin l ≤ x := by
  cases l with
  | nil => cases hx
  | cons y ys =>
    rcases List.mem_cons.mp hx with rfl | h
    · exact foldl_min_le_init x ys
    · exact foldl_min_le_mem h y

lemma init_le_foldl_max (a : α) (l : List α) : a ≤ l.foldl max a := by
  induction l generalizing a with
  | nil => exact le_refl a
  | cons y ys ih => exact le_trans (le_max_left a y) (ih (max a y))

lemma mem_le_foldl_max {x : α} {l : List α} (hx : x ∈ l) (a : α) :
    x ≤ l.foldl max a := by
  induction l generalizing a with
  | nil => cases hx
  | cons y ys ih =>
    rcases List.mem_cons.mp hx with rfl | h
    · exact le_trans (le_max_right a x) (init_le_foldl_max (max a x) ys)
    · exact ih h _

lemma mem_le_listMax {x : α} {l : List α} (hx : x ∈ l) : x ≤ listMax l := by
  cases l with
  | nil => cases hx
  | cons y ys =>
    rcases List.mem_cons.mp hx with rfl | h
    · exact init_le_foldl_max x ys
    · exact mem_le_foldl_max h y

variable [FloorRing α]

lemma percentile_eq_interpAt (values : List α) (p : α) (h : values ≠ []) :
    percentile values p =
      interpAt (List.insertionSort (· ≤ ·) values)
        (p / 100 * ((values.length : α) - 1)) := by
  have h0 : ¬values.length = 0 := by simpa [List.length_eq_zero] using h
  have hlen : (List.insertionSort (· ≤ ·) values).length = values.length :=
    List.length_insertionSort _ _
  simp only [percentile, interpAt, h0, if_false, hlen]

lemma floor_le_interpAt {s : List α} (hs : s.Sorted (· ≤ ·)) {idx : α}
    (h0 : 0 ≤ idx) (hub : idx ≤ (s.length : α) - 1) :
    s.getD ⌊idx⌋.toNat 0 ≤ interpAt s idx := by
  unfold interpAt
  split
  · exact le_refl _
  · have hcl : ⌈idx⌉ ≤ (s.length : ℤ) - 1 := by
      rw [Int.ceil_le]; push_cast; exact hub
    have hfl0 : (0 : ℤ) ≤ ⌊idx⌋ := Int.floor_nonneg.mpr h0
    have hflcl : ⌊idx⌋ ≤ ⌈idx⌉ := Int.floor_le_ceil idx
    have hclN : ⌈idx⌉.toNat < s.length := by omega
    have hlohi : s.getD ⌊idx⌋.toNat 0 ≤ s.getD ⌈idx⌉.toNat 0 :=
      sorted_getD_mono hs (by omega) hclN
    have hfrac : 0 ≤ idx - (⌊idx⌋ : α) := sub_nonneg.mpr (Int.floor_le idx)
    nlinarith

lemma interpAt_le_ceil {s : List α} (hs : s.Sorted (· ≤ ·)) {idx : α}
    (h0 : 0 ≤ idx) (hub : idx ≤ (s.length : α) - 1) :
    interpAt s idx ≤ s.getD ⌈idx⌉.toNat 0 := by
  unfold interpAt
  split
  · rename_i h
    rw [h]
  · have hcl : ⌈idx⌉ ≤ (s.length : ℤ) - 1 := by
      rw [Int.ceil_le]; push_cast; exact hub
    have hfl0 : (0 : ℤ) ≤ ⌊idx⌋ := Int.floor_nonneg.mpr h0
    have hflcl : ⌊idx⌋ ≤ ⌈idx⌉ := Int.floor_le_ceil idx
    have hclN : ⌈idx⌉.toNat < s.length := by omega
    have hlohi : s.getD ⌊idx⌋.toNat 0 ≤ s.getD ⌈idx⌉.toNat 0 :=
      sorted_getD_mono hs (by omega) hclN
    have hfrac1 : idx - (⌊idx⌋ : α) ≤ 1 := by
      have := Int.lt_floor_add_one idx
      linarith
    nlinarith

lemma interpAt_mono {s : List α} (hs : s.Sorted (· ≤ ·)) {i j : α}
    (h0 : 0 ≤ i) (hij : i ≤ j) (hub : j ≤ (s.length : α) - 1) :
    interpAt s i ≤ interpAt s j := by
  have h0j : 0 ≤ j := le_trans h0 hij
  have hubi : i ≤ (s.length : α) - 1 := le_trans hij hub
  have hclj : ⌈j⌉ ≤ (s.length : ℤ) - 1 := by
    rw [Int.ceil_le]; push_cast; exact hub
  by_cases hAB : ⌈i⌉ ≤ ⌊j⌋
  · have hfl0i : (0 : ℤ) ≤ ⌈i⌉ := le_trans (Int.floor_nonneg.mpr h0) (Int.floor_le_ceil i)
    have hflclj : ⌊j⌋ ≤ ⌈j⌉ := Int.floor_le_ceil j
    calc interpAt s i ≤ s.getD ⌈i⌉.toNat 0 := interpAt_le_ceil hs h0 hubi
      _ ≤ s.getD ⌊j⌋.toNat 0 := sorted_getD_mono hs (by omega) (by omega)
      _ ≤ interpAt s j := floor_le_interpAt hs h0j hub
  · push_neg at hAB
    have hfm : ⌊i⌋ ≤ ⌊j⌋ := Int.floor_mono hij
    have hcfi : ⌈i⌉ ≤ ⌊i⌋ + 1 := Int.ceil_le_floor_add_one i
    have hfci : ⌊i⌋ ≤ ⌈i⌉ := Int.floor_le_ceil i
    have hfij : ⌊i⌋ = ⌊j⌋ := by omega
    have hci : ⌈i⌉ = ⌊i⌋ + 1 := by omega
    have hne_i : (⌊i⌋ : ℤ) ≠ ⌈i⌉ := by omega
    have hij_ne : (⌊j⌋ : ℤ) ≠ ⌈j⌉ := by
      intro hEq
      have h1 : ((⌊j⌋ : ℤ) : α) ≤ j := Int.floor_le j
      have h2 : j ≤ ((⌈j⌉ : ℤ) : α) := Int.le_ceil j
      have hjz : j = ((⌊j⌋ : ℤ) : α) := le_antisymm (by rw [hEq]; exact h2) h1
      have h3 : i ≤ ((⌊i⌋ : ℤ) : α) := by
        rw [hfij]
        exact hjz ▸ hij
      have h4 : ((⌊i⌋ : ℤ) : α) ≤ i := Int.floor_le i
      have h5 : i = ((⌊i⌋ : ℤ) : α) := le_antisymm h3 h4
      have h6 : ⌈i⌉ = ⌊i⌋ := by
        conv_lhs => rw [h5]
        exact Int.ceil_intCast _
      omega
    have hcj : ⌈j⌉ = ⌊j⌋ + 1 := by
      have := Int.floor_le_ceil j
      have := Int.ceil_le_floor_add_one j
      omega
    unfold interpAt
    rw [if_neg hne_i, if_neg hij_ne, hfij, hci, hfij, hcj]
    have hlohi : s.getD ⌊j⌋.toNat 0 ≤ s.getD (⌊j⌋ + 1).toNat 0 := by
      have hfl0 : (0 : ℤ) ≤ ⌊j⌋ := Int.floor_nonneg.mpr h0j
      exact sorted_getD_mono hs (by omega) (by omega)
    have hmul := mul_le_mul_of_nonneg_left
      (sub_le_sub_right hij ((⌊j⌋ : ℤ) : α)) (sub_nonneg.mpr hlohi)
    linarith

lemma percentile_mono {values : List α} (h : values ≠ []) {p q : α}
    (h0 : 0 ≤ p) (hpq : p ≤ q) (hq : q ≤ 100) :
    percentile values p ≤ percentile values q := by
  have hs : (List.insertionSort (· ≤ ·) values).Sorted (· ≤ ·) :=
    List.sorted_insertionSort _ values
  have hlen : (List.insertionSort (· ≤ ·) values).length = values.length :=
    List.length_insertionSort _ _
  have hlp : 1 ≤ values.length := List.length_pos.mpr h
  have hlc : (1 : α) ≤ (values.length : α) := by exact_mod_cast hlp
  rw [percentile_eq_interpAt _ _ h, percentile_eq_interpAt _ _ h]
  apply interpAt_mono hs
  · exact mul_nonneg (div_nonneg h0 (by norm_num)) (by linarith)
  · exact mul_le_mul_of_nonneg_right
      ((div_le_div_iff_of_pos_right (by norm_num : (0 : α) < 100)).mpr hpq)
      (by linarith)
  · rw [hlen]
    have hq1 : q / 100 ≤ 1 := (div_le_one (by norm_num)).mpr hq
    exact mul_le_of_le_one_left (by linarith) hq1

lemma interpAt_natCast (s : List α) (m : ℕ) : interpAt s ((m : ℕ) : α) = s.getD m 0 := by
  unfold interpAt
  have hfl : ⌊((m : ℕ) : α)⌋ = (m : ℤ) := Int.floor_natCast m
  have hcl : ⌈((m : ℕ) : α)⌉ = (m : ℤ) := Int.ceil_natCast m
  rw [hfl, hcl, if_pos rfl]
  simp

lemma interpAt_half (s : List α) {m : ℕ} (hm : 1 ≤ m) :
    interpAt s ((m : α) - 1 / 2) = (s.getD (m - 1) 0 + s.getD m 0) / 2 := by
  have hm1 : (1 : α) ≤ (m : α) := by exact_mod_cast hm
  have hfl : ⌊(m : α) - 1 / 2⌋ = (m : ℤ) - 1 := by
    rw [Int.floor_eq_iff]
    constructor
    · push_cast; linarith
    · push_cast; linarith
  have hcl : ⌈(m : α) - 1 / 2⌉ = (m : ℤ) := by
    rw [Int.ceil_eq_iff]
    constructor
    · push_cast; linarith
    · push_cast; linarith
  unfold interpAt
  rw [hfl, hcl, if_neg (by omega)]
  have ht1 : ((m : ℤ) - 1).toNat = m - 1 := by omega
  have ht2 : ((m : ℤ)).toNat = m := by omega
  rw [ht1, ht2]
  push_cast
  ring

lemma median_eq_percentile_fifty (values : List α) :
    median values = percentile values 50 := by
  rcases eq_or_ne values [] with rfl | h
  · simp [median, percentile]
  · have h0 : ¬values.length = 0 := by simpa [List.length_eq_zero] using h
    have hlen : (List.insertionSort (· ≤ ·) values).length = values.length :=
      List.length_insertionSort _ _
    rw [percentile_eq_interpAt _ _ h]
    rcases Nat.even_or_odd values.length with ⟨m, hm⟩ | ⟨m, hm⟩
    · have hm1 : 1 ≤ m := by omega
      have hidx : (50 : α) / 100 * ((values.length : α) - 1) = (m : α) - 1 / 2 := by
        rw [hm]; push_cast; ring
      rw [hidx, interpAt_half _ hm1]
      simp only [median, h0, if_false, hlen]
      rw [if_neg (by omega), show values.length / 2 = m by omega]
    · have hidx : (50 : α) / 100 * ((values.length : α) - 1) = ((m : ℕ) : α) := by
        rw [hm]; push_cast; ring
      rw [hidx, interpAt_natCast]
      simp only [median, h0, if_false, hlen]
      rw [if_pos (by omega), show values.length / 2 = m by omega]

lemma listMin_le_percentile {values : List α} (h : values ≠ []) {p : α}
    (h0 : 0 ≤ p) (h100 : p ≤ 100) : listMin values ≤ percentile values p := by
  have hs : (List.insertionSort (· ≤ ·) values).Sorted (· ≤ ·) :=
    List.sorted_insertionSort _ values
  have hlen : (List.insertionSort (· ≤ ·) values).length = values.length :=
    List.length_insertionSort _ _
  have hlp : 1 ≤ values.length := List.length_pos.mpr h
  have hlc : (1 : α) ≤ (values.length : α) := by exact_mod_cast hlp
  rw [percentile_eq_interpAt _ _ h]
  set idx : α := p / 100 * ((values.length : α) - 1) with hidx
  have hidx0 : 0 ≤ idx := mul_nonneg (div_nonneg h0 (by norm_num)) (by linarith)
  have hub : idx ≤ ((List.insertionSort (· ≤ ·) values).length : α) - 1 := by
    rw [hlen]
    have hq1 : p / 100 ≤ 1 := (div_le_one (by norm_num)).mpr h100
    exact mul_le_of_le_one_left (by linarith) hq1
  refine le_trans ?_ (floor_le_interpAt hs hidx0 hub)
  have hcl : ⌈idx⌉ ≤ ((List.insertionSort (· ≤ ·) values).length : ℤ) - 1 := by
    rw [Int.ceil_le]; push_cast; push_cast at hub; exact hub
  have hflcl : ⌊idx⌋ ≤ ⌈idx⌉ := Int.floor_le_ceil idx
  have hmem : (List.insertionSort (· ≤ ·) values).getD ⌊idx⌋.toNat 0 ∈
      List.insertionSort (· ≤ ·) values := getD_mem_of_lt (by omega)
  exact listMin_le_mem ((List.perm_insertionSort _ values).mem_iff.mp hmem)

lemma percentile_le_listMax {values : List α} (h : values ≠ []) {p : α}
    (h0 : 0 ≤ p) (h100 : p ≤ 100) : percentile values p ≤ listMax values := by
  have hs : (List.insertionSort (· ≤ ·) values).Sorted (· ≤ ·) :=
    List.sorted_insertionSort _ values
  have hlen : (List.insertionSort (· ≤ ·) values).length = values.length :=
    List.length_insertionSort _ _
  have hlp : 1 ≤ values.length := List.length_pos.mpr h
  have hlc : (1 : α) ≤ (values.length : α) := by exact_mod_cast hlp
  rw [percentile_eq_interpAt _ _ h]
  set idx : α := p / 100 * ((values.length : α) - 1) with hidx
  have hidx0 : 0 ≤ idx := mul_nonneg (div_nonneg h0 (by norm_num)) (by linarith)
  have hub : idx ≤ ((List.insertionSort (· ≤ ·) values).length : α) - 1 := by
    rw [hlen]
    have hq1 : p / 100 ≤ 1 := (div_le_one (by norm_num)).mpr h100
    exact mul_le_of_le_one_left (by linarith) hq1
  refine le_trans (interpAt_le_ceil hs hidx0 hub) ?_
  have hcl : ⌈idx⌉ ≤ ((List.insertionSort (· ≤ ·) values).length : ℤ) - 1 := by
    rw [Int.ceil_le]; push_cast; push_cast at hub; exact hub
  have hmem : (List.insertionSort (· ≤ ·) values).getD ⌈idx⌉.toNat 0 ∈
      List.insertionSort (· ≤ ·) values := getD_mem_of_lt (by omega)
  exact mem_le_listMax ((List.perm_insertionSort _ values).mem_iff.mp hmem)

/-- Full order-statistic chain for a non-empty list. -/
lemma orderStatChain {values : List α} (h : values ≠ []) :
    listMin values ≤ percentile values 25 ∧
      percentile values 25 ≤ median values ∧
        median values ≤ percentile values 75 ∧
          percentile values 75 ≤ listMax values := by
  refine ⟨listMin_le_percentile h (by norm_num) (by norm_num), ?_, ?_,
    percentile_le_listMax h (by norm_num) (by norm_num)⟩
  · rw [median_eq_percentile_fifty]
    exact percentile_mono h (by norm_num) (by norm_num) (by norm_num)
  · rw [median_eq_percentile_fifty]
    exact percentile_mono h (by norm_num) (by norm_num) (by norm_num)

end OrderStats

/-! Helper lemmas about the segmenter, the OLS sums, and concrete values
used by the claim theorems. -/

section MiscHelpers

variable {α : Type*} [LinearOrderedField α]

lemma buildSegments_cons_ne_nil (e0 : StressEntry) (rest : List StressEntry)
    (wps : List Waypoint) : buildSegments (e0 :: rest) wps ≠ [] := by
  simp only [buildSegments]
  split
  · simp
  · simp

lemma olsSums_y_go (values : List α) (i : ℕ) (s : α × α × α × α) :
    ((values.enumFrom i).foldl
        (fun s iv =>
          (s.1 + (iv.1 : α), s.2.1 + iv.2, s.2.2.1 + (iv.1 : α) * iv.2,
            s.2.2.2 + (iv.1 : α) * (iv.1 : α))) s).2.1 =
      values.foldl (fun t v => t + v) s.2.1 := by
  induction values generalizing i s with
  | nil => rfl
  | cons v vs ih =>
    simp only [List.enumFrom, List.foldl_cons]
    exact ih (i + 1) _

lemma olsSums_sumY (values : List α) :
    (olsSums values).2.1 = values.foldl (fun s v => s + v) 0 := by
  unfold olsSums List.enum
  exact olsSums_y_go values 0 (0, 0, 0, 0)

end MiscHelpers

/-- C6: order-statistic chain: for every non-empty list of reals,
`min(xs) ≤ percentile(xs,25) ≤ median(xs) ≤ percentile(xs,75) ≤ max(xs)`;
and every `SegmentStats` bundle computed by `computeSegmentStats` from a
segment with `count > 0` satisfies `min ≤ p25 ≤ median ≤ p75 ≤ max` on its
fields. -/
theorem C6_order_statistic_chain :
    (∀ xs : List ℝ, xs ≠ [] →
        listMin xs ≤ percentile xs 25 ∧
          percentile xs 25 ≤ median xs ∧
            median xs ≤ percentile xs 75 ∧ percentile xs 75 ≤ listMax xs) ∧
      ∀ seg : Segment, 0 < (computeSegmentStats seg).count →
        (computeSegmentStats seg).min ≤ (computeSegmentStats seg).p25 ∧
          (computeSegmentStats seg).p25 ≤ (computeSegmentStats seg).median ∧
            (computeSegmentStats seg).median ≤ (computeSegmentStats seg).p75 ∧
              (computeSegmentStats seg).p75 ≤ (computeSegmentStats seg).max := by
  constructor
  · exact fun xs h => orderStatChain h
  · intro seg hc
    have hlen : 0 < (seg.entries.map (fun e => e.score)).length := by
      simpa [computeSegmentStats] using hc
    have hne : seg.entries.map (fun e => e.score) ≠ [] :=
      List.length_pos.mp hlen
    have h := orderStatChain (α := ℝ) hne
    simpa [computeSegmentStats] using h

/-- Witness for C6 at the concrete list `[3, 1, 2]` and a concrete
two-measurement segment. -/
theorem C6_order_statistic_chain_witness :
    (([3, 1, 2] : List ℝ) ≠ [] ∧
        listMin ([3, 1, 2] : List ℝ) ≤ percentile ([3, 1, 2] : List ℝ) 25 ∧
          percentile ([3, 1, 2] : List ℝ) 25 ≤ median ([3, 1, 2] : List ℝ) ∧
            median ([3, 1, 2] : List ℝ) ≤ percentile ([3, 1, 2] : List ℝ) 75 ∧
              percentile ([3, 1, 2] : List ℝ) 75 ≤ listMax ([3, 1, 2] : List ℝ)) ∧
      0 < (computeSegmentStats
            { label := "s", startDate := 1, endDate := 2,
              entries := [⟨1, 5⟩, ⟨2, 7⟩] }).count ∧
        (computeSegmentStats
            { label := "s", startDate := 1, endDate := 2,
              entries := [⟨1, 5⟩, ⟨2, 7⟩] }).min ≤
          (computeSegmentStats
            { label := "s", startDate := 1, endDate := 2,
              entries := [⟨1, 5⟩, ⟨2, 7⟩] }).p25 :=
  ⟨⟨by simp, C6_order_statistic_chain.1 [3, 1, 2] (by simp)⟩,
    by simp [computeSegmentStats],
    (C6_order_statistic_chain.2
      { label := "s", startDate := 1, endDate := 2, entries := [⟨1, 5⟩, ⟨2, 7⟩] }
      (by simp [computeSegmentStats])).1⟩

/-- C10: `buildSegments` returns no segments exactly when the input series
is empty; any non-empty series (whatever the markers) yields at least one
segment. -/
theorem C10_buildSegments_empty_iff (entries : List StressEntry)
    (wps : List Waypoint) : buildSegments entries wps = [] ↔ entries = [] := by
  cases entries with
  | nil => simp [buildSegments]
  | cons e0 rest =>
    exact iff_of_false (buildSegments_cons_ne_nil e0 rest wps)
      (List.cons_ne_nil e0 rest)

/-- Witness for C10 at concrete inputs. -/
theorem C10_buildSegments_empty_iff_witness :
    buildSegments [] [] = [] ∧ buildSegments [⟨1, 40⟩] [] ≠ [] :=
  ⟨(C10_buildSegments_empty_iff [] []).mpr rfl,
    fun h => List.cons_ne_nil _ _ ((C10_buildSegments_empty_iff [⟨1, 40⟩] []).mp h)⟩

/-- C4: degenerate-input sentinels: `welchTTest` returns exactly `1` when
either group has fewer than two elements or the standard error
`sqrt(varA/nA + varB/nB)` is exactly `0`; `cohensD` returns exactly `0`
when either group has fewer than two elements or the pooled standard
deviation is `0`. Both are returned values of the total functions. -/
theorem C4_degenerate_sentinels (a b : List ℝ) :
    ((a.length < 2 ∨ b.length < 2 ∨
        Real.sqrt (variance a / (a.length : ℝ) + variance b / (b.length : ℝ)) = 0) →
      welchTTest a b = 1) ∧
      ((a.length < 2 ∨ b.length < 2 ∨
          Real.sqrt ((((a.length : ℝ) - 1) * variance a +
              ((b.length : ℝ) - 1) * variance b) /
            ((a.length : ℝ) + (b.length : ℝ) - 2)) = 0) →
        cohensD a b = 0) := by
  constructor
  · intro h
    simp only [welchTTest]
    rcases h with h | h | h
    · rw [if_pos (Or.inl h)]
    · rw [if_pos (Or.inr h)]
    · by_cases hl : a.length < 2 ∨ b.length < 2
      · rw [if_pos hl]
      · rw [if_neg hl, if_pos h]
  · intro h
    simp only [cohensD]
    rcases h with h | h | h
    · rw [if_pos (Or.inl h)]
    · rw [if_pos (Or.inr h)]
    · by_cases hl : a.length < 2 ∨ b.length < 2
      · rw [if_pos hl]
      · rw [if_neg hl, if_pos h]

/-- Witness for C4 with a singleton first group. -/
theorem C4_degenerate_sentinels_witness :
    (([(1 : ℝ)] : List ℝ).length < 2 ∧ welchTTest [(1 : ℝ)] [2, 3] = 1) ∧
      ([(1 : ℝ)] : List ℝ).length < 2 ∧ cohensD [(1 : ℝ)] [2, 3] = 0 :=
  ⟨⟨by norm_num, (C4_degenerate_sentinels [(1 : ℝ)] [2, 3]).1 (Or.inl (by norm_num))⟩,
    by norm_num, (C4_degenerate_sentinels [(1 : ℝ)] [2, 3]).2 (Or.inl (by norm_num))⟩

/-- C7: the two-tailed Welch test is symmetric in its two groups:
swapping the arguments flips the sign of the t statistic only, which the
two-tailed p-value does not see. -/
theorem C7_welchTTest_symmetric (a b : List ℝ) : welchTTest a b = welchTTest b a := by
  simp only [welchTTest]
  by_cases hlen : a.length < 2 ∨ b.length < 2
  · rw [if_pos hlen, if_pos (Or.symm hlen)]
  · rw [if_neg hlen, if_neg (fun h => hlen (Or.symm h))]
    rw [add_comm (variance b / (b.length : ℝ)) (variance a / (a.length : ℝ))]
    rw [add_comm ((variance b / (b.length : ℝ)) ^ 2 / ((b.length : ℝ) - 1))
      ((variance a / (a.length : ℝ)) ^ 2 / ((a.length : ℝ) - 1))]
    rw [abs_div, abs_div, abs_sub_comm (mean b) (mean a)]

/-- C5: `computeWaypointComparison` splits the whole series into
`before = {date < marker.date}` and `after = {date ≥ marker.date}` and
returns `none` exactly when one side has fewer than two measurements;
otherwise it returns a record whose two sides are the statistics of
exactly those splits. -/
theorem C5_split_and_null_iff (entries : List StressEntry) (wp : Waypoint) :
    (computeWaypointComparison entries wp = none ↔
        (entries.filter (fun e => e.date < wp.date)).length < 2 ∨
          (entries.filter (fun e => wp.date ≤ e.date)).length < 2) ∧
      ∀ c, computeWaypointComparison entries wp = some c →
        c.before.count = (entries.filter (fun e => e.date < wp.date)).length ∧
          c.after.count = (entries.filter (fun e => wp.date ≤ e.date)).length ∧
            c.before.label = "Before " ++ wp.label ∧
              c.after.label = "After " ++ wp.label ∧
                c.before.mean =
                  mean ((entries.filter (fun e => e.date < wp.date)).map (fun e => e.score)) ∧
                  c.after.mean =
                    mean ((entries.filter (fun e => wp.date ≤ e.date)).map (fun e => e.score)) := by
  simp only [computeWaypointComparison]
  by_cases h :
      ((entries.filter (fun e => e.date < wp.date)).map (fun e => e.score)).length < 2 ∨
        ((entries.filter (fun e => wp.date ≤ e.date)).map (fun e => e.score)).length < 2
  · rw [if_pos h]
    constructor
    · simp only [List.length_map] at h
      exact iff_of_true rfl h
    · intro c hc
      exact absurd hc (by simp)
  · rw [if_neg h]
    constructor
    · simp only [List.length_map] at h
      exact iff_of_false (by simp) h
    · intro c hc
      have hc' := (Option.some.injEq _ _).mp hc
      subst hc'
      refine ⟨?_, ?_, rfl, rfl, ?_, ?_⟩ <;>
        simp [computeSegmentStats]

/-- Witness for C5: a one-point series yields the `none` sentinel, and on
the four-point series split at date 3 the record's before-side has exactly
the two strictly earlier measurements. -/
theorem C5_split_and_null_iff_witness :
    computeWaypointComparison [⟨1, 40⟩] { id := "w", date := 2, label := "X" } = none ∧
      (computeWaypointComparison [⟨1, 40⟩, ⟨2, 50⟩, ⟨3, 90⟩, ⟨4, 90⟩]
            { id := "w1", date := 3, label := "Change" }).map
          (fun c => c.before.count) = some 2 := by
  constructor
  · exact (C5_split_and_null_iff [⟨1, 40⟩] { id := "w", date := 2, label := "X" }).1.mpr
      (Or.inl (by decide))
  · cases hc : computeWaypointComparison [⟨1, 40⟩, ⟨2, 50⟩, ⟨3, 90⟩, ⟨4, 90⟩]
        { id := "w1", date := 3, label := "Change" } with
    | none =>
      have h := (C5_split_and_null_iff [⟨1, 40⟩, ⟨2, 50⟩, ⟨3, 90⟩, ⟨4, 90⟩]
        { id := "w1", date := 3, label := "Change" }).1.mp hc
      exact absurd h (by decide)
    | some c =>
      have h := ((C5_split_and_null_iff [⟨1, 40⟩, ⟨2, 50⟩, ⟨3, 90⟩, ⟨4, 90⟩]
        { id := "w1", date := 3, label := "Change" }).2 c hc).1
      simp only [Option.map_some']
      rw [h]
      decide

/-- C9: `linearRegression` returns slope `0` and intercept `values[0] ?? 0`
for inputs shorter than two; returns slope `0` and intercept `mean(ys)`
whenever the OLS denominator is zero; and on `[10, 20, 30]` returns slope
`10` and intercept `10`. -/
theorem C9_linearRegression_behaviour (ys : List ℝ) :
    (ys.length < 2 → linearRegression ys = ⟨0, headOr0 ys⟩) ∧
      (olsDenom ys = 0 → linearRegression ys = ⟨0, mean ys⟩) ∧
        linearRegression ([10, 20, 30] : List ℝ) = ⟨10, 10⟩ := by
  refine ⟨?_, ?_, ?_⟩
  · intro h
    simp only [linearRegression]
    rw [if_pos h]
  · intro h
    by_cases hl : ys.length < 2
    · rcases ys with _ | ⟨v, _ | ⟨w, t⟩⟩
      · simp [linearRegression, headOr0, mean]
      · simp [linearRegression, headOr0, mean]
      · exfalso
        simp at hl
        omega
    · simp only [linearRegression]
      rw [if_neg hl, if_pos h]
      have hy := olsSums_sumY (α := ℝ) ys
      have hne : (ys.length : ℝ) ≠ 0 := by
        have : 2 ≤ ys.length := le_of_not_lt hl
        positivity
      simp only [mean]
      rw [if_neg (by omega : ¬ys.length = 0), hy]
  · have hd : olsDenom ([10, 20, 30] : List ℝ) ≠ 0 := by
      norm_num [olsDenom, olsSums, List.enum, List.enumFrom]
    simp only [linearRegression]
    rw [if_neg (by norm_num), if_neg hd]
    norm_num [olsDenom, olsSums, List.enum, List.enumFrom, LinReg.mk.injEq]

/-- Witness for C9 at a singleton list (covering both degenerate
hypotheses) and the concrete scenario. -/
theorem C9_linearRegression_behaviour_witness :
    (([5] : List ℝ).length < 2 ∧ linearRegression ([5] : List ℝ) = ⟨0, headOr0 [5]⟩) ∧
      (olsDenom ([5] : List ℝ) = 0 ∧ linearRegression ([5] : List ℝ) = ⟨0, mean [5]⟩) ∧
        linearRegression ([10, 20, 30] : List ℝ) = ⟨10, 10⟩ :=
  ⟨⟨by norm_num, (C9_linearRegression_behaviour [5]).1 (by norm_num)⟩,
    ⟨by norm_num [olsDenom, olsSums, List.enum, List.enumFrom],
      (C9_linearRegression_behaviour [5]).2.1
        (by norm_num [olsDenom, olsSums, List.enum, List.enumFrom])⟩,
    (C9_linearRegression_behaviour []).2.2⟩

/-- C1 (code-bug exhibit): on the sorted unique-date series
`[(1,40),(2,50),(3,90)]` with no markers, `buildSegments` returns a single
segment holding only the first two measurements: the bucket condition of
the lone boundary pair is `date < lastDate`, so the measurement dated `3`
belongs to no returned segment and the partition property fails (the
"All Data" fallback never fires because the loop pushed a segment). -/
theorem C1_partition_failing_input :
    buildSegments [⟨1, 40⟩, ⟨2, 50⟩, ⟨3, 90⟩] [] =
      [{ label := "Before first waypoint", startDate := 1, endDate := 2,
         entries := [⟨1, 40⟩, ⟨2, 50⟩] }] := rfl

/-- C2 (code-bug exhibit): on the two-measurement series `[(1,40),(2,50)]`
with an empty marker list, `buildSegments` does not return an "All Data"
segment spanning the series: it returns one segment labeled
"Before first waypoint" holding only the first measurement. -/
theorem C2_allData_failing_input :
    buildSegments [⟨1, 40⟩, ⟨2, 50⟩] [] =
      [{ label := "Before first waypoint", startDate := 1, endDate := 1,
         entries := [⟨1, 40⟩] }] := rfl

end Sarahtonin
